import Mathlib

/-!
Verification development for the BraintrustCLI export pipeline.

This file gives a shallow embedding, in Lean 4, of the algorithmic core of
the repository: the exponential-backoff policy and retry executor
(`src/braintrust/rate-limiter.js`), the record flattening and the streaming
CSV writer with schema-drift detection, the cursor-paginated fetcher, and
the per-entity export orchestrator (the large unnamed API module).  JS
objects are modelled as ordered association lists, JS numbers in the
backoff arithmetic as rationals (with an explicit tag type for NaN and the
infinities where the code can observe them), and side effects (file writes)
as an explicit operation log.  Theorems about the claims of the
specification follow the definitions.
-/

namespace BraintrustCLI

/-! ## JS value model -/

/-- A JSON-like JS value.  `vFault` stands for a value whose
`JSON.stringify` throws (e.g. a BigInt or a proxy that raises); the
message is the error message the throw carries. -/
inductive Value where
  | vNull
  | vBool (b : Bool)
  | vNum (n : Int)
  | vStr (s : String)
  | vArr (elems : List Value)
  | vObj (fields : List (String × Value))
  | vFault (msg : String)


/-- A record is a JS object: an ordered association list. -/
abbrev Record := List (String × Value)

/-- JS property assignment `res[k] = v`: update in place if the key
exists (keeping its position), otherwise append. -/
def jsSet (res : List (String × Value)) (k : String) (v : Value) :
    List (String × Value) :=
  if res.any (fun p => p.1 == k) then
    res.map (fun p => if p.1 == k then (k, v) else p)
  else
    res ++ [(k, v)]

/-- JS property read: the value stored at key `k`, if any. -/
def jsGet (res : List (String × Value)) (k : String) : Option Value :=
  (res.find? (fun p => p.1 == k)).map Prod.snd

/-- Whether `p` is a prefix of the character list `l`. -/
def isPrefixOfChars : List Char → List Char → Bool
  | [], _ => true
  | _ :: _, [] => false
  | p :: ps, c :: cs => p == c && isPrefixOfChars ps cs

/-- Whether `pat` occurs as a contiguous substring of `l`. -/
def hasSubstringChars (l pat : List Char) : Bool :=
  match l with
  | [] => pat.isEmpty
  | _ :: rest => isPrefixOfChars pat l || hasSubstringChars rest pat

/-- `s.includes(pat)`. -/
def strContains (s pat : String) : Bool :=
  hasSubstringChars s.data pat.data

/-- One character of JSON string escaping. -/
def escapeJSONChar (c : Char) : String :=
  if c = '\"' then "\\\""
  else if c = '\\' then "\\\\"
  else if c = '\n' then "\\n"
  else if c = '\r' then "\\r"
  else if c = '\t' then "\\t"
  else String.singleton c

/-- JSON string quoting. -/
def jsonQuote (s : String) : String :=
  "\"" ++ String.join (s.data.map escapeJSONChar) ++ "\""

mutual

/-- `JSON.stringify`, modelled on the fragment of JS values above; a
`vFault` anywhere inside makes the whole call throw.  -/
def jsonStringify : Value → Except String String
  | .vNull => .ok "null"
  | .vBool b => .ok (if b then "true" else "false")
  | .vNum n => .ok (toString n)
  | .vStr s => .ok (jsonQuote s)
  | .vFault msg => .error msg
  | .vArr elems => do
      let parts ← jsonStringifyList elems
      .ok ("[" ++ String.intercalate "," parts ++ "]")
  | .vObj fields => do
      let parts ← jsonStringifyFields fields
      .ok ("\x7b" ++ String.intercalate "," parts ++ "\x7d")

def jsonStringifyList : List Value → Except String (List String)
  | [] => .ok []
  | v :: rest => do
      let s ← jsonStringify v
      let ss ← jsonStringifyList rest
      .ok (s :: ss)

def jsonStringifyFields : List (String × Value) → Except String (List String)
  | [] => .ok []
  | (k, v) :: rest => do
      let s ← jsonStringify v
      let ss ← jsonStringifyFields rest
      .ok ((jsonQuote k ++ ":" ++ s) :: ss)

end

/-! ## Flattening (`flattenObject`, part_003 lines 981-1013) -/

/-- The array branch of `flattenObject`: arrays longer than 1000 items,
or whose serialized form exceeds 100000 characters, become truncation
placeholder strings; a stringify throw becomes an error placeholder.
`Math.round(len / 1024)` on a nonnegative value is `(len + 512) / 1024`
in integer arithmetic. -/
def serializeArray (elems : List Value) : Value :=
  if 1000 < elems.length then
    .vStr ("[Array with " ++ toString elems.length ++
      " items - truncated for export]")
  else
    match jsonStringify (.vArr elems) with
    | .ok s =>
        if 100000 < s.length then
          .vStr ("[Array data too large (" ++
            toString ((s.length + 512) / 1024) ++
            "KB) - truncated for export]")
        else .vStr s
    | .error msg => .vStr ("[Error serializing array: " ++ msg ++ "]")

mutual

/-- The traversal of `flattenObject`, emitting the `(newKey, value)`
assignments in source order.  A nested plain object recurses with the
dot-joined key; an array passes through `serializeArray`; anything else
(including `null`) passes through unchanged. -/
def flattenFields : List (String × Value) → String → List (String × Value)
  | [], _ => []
  | (k, v) :: rest, pre =>
      flattenEntry (if pre = "" then k else pre ++ "." ++ k) v ++
        flattenFields rest pre

def flattenEntry : String → Value → List (String × Value)
  | key, .vObj fields => flattenFields fields key
  | key, .vArr elems => [(key, serializeArray elems)]
  | key, v => [(key, v)]

end

/-- `flattenObject(obj)`: replay the traversal's assignments into a fresh
result object. -/
def flattenObject (obj : Record) : List (String × Value) :=
  (flattenFields obj "").foldl (fun res kv => jsSet res kv.1 kv.2) []

/-! ## Streaming CSV writer (`streamCSVToFile`, part_003 lines 805-951) -/

/-- A file operation performed by the writer: the initial write (with a
header row for `headers`) or an append (no header row); in both cases
the rows are projections of flattened records onto `headers`. -/
inductive FileOp where
  | writeFile (headers : List String) (rows : List (List (Option Value)))
  | appendFile (headers : List String) (rows : List (List (Option Value)))


def FileOp.headersOf : FileOp → List String
  | .writeFile hs _ => hs
  | .appendFile hs _ => hs

def FileOp.rowsOf : FileOp → List (List (Option Value))
  | .writeFile _ rs => rs
  | .appendFile _ rs => rs

/-- The keys of a flattened record. -/
def keysOf (f : List (String × Value)) : List String := f.map Prod.fst

/-- Sorting of header keys; the source sorts the deduplicated key set
with `Array.prototype.sort`, and on distinct strings any correct sort
gives the same list. -/
def sortKeys (l : List String) : List String :=
  List.insertionSort (fun a b => a ≤ b) l

/-- `Array.from(headerSet).sort()`: the sorted set of all keys appearing
in the flattened records. -/
def sortedHeaders (flats : List (List (String × Value))) : List String :=
  sortKeys ((flats.map keysOf).flatten.dedup)

/-- The row the CSV parser emits for one flattened record under a fixed
field list: one cell per header, missing fields empty. -/
def projectRow (hs : List String) (f : List (String × Value)) :
    List (Option Value) :=
  hs.map (fun h => jsGet f h)

/-- The writer's truncation probe: a flattened string value containing
one of the placeholder markers. -/
def isTruncMarker : Value → Bool
  | .vStr s => strContains s "truncated for export" ||
      strContains s "Error serializing"
  | _ => false

def recordHasTruncMarker (f : List (String × Value)) : Bool :=
  f.any (fun p => isTruncMarker p.2)

def INITIAL_BUFFER_SIZE : Nat := 1000

/-- The writer's state.  `headers = none` is the source's
`isBuffering = true` (the two are set together); `ops` is the log of
file operations performed so far. -/
structure WState where
  buffer : List Record
  headers : Option (List String)
  recordCount : Nat
  hadTruncation : Bool
  schemaDriftDetected : Bool
  ops : List FileOp


/-- One iteration of the writer's batch loop: empty batches are skipped;
while buffering, the batch is pushed and, once the buffer reaches
`INITIAL_BUFFER_SIZE`, the header set is locked and the buffer written;
afterwards each batch is flattened, scanned for drifted keys and for
truncation markers, and appended under the locked headers. -/
def processBatch (s : WState) (recordsArray : List Record) : WState :=
  if recordsArray.isEmpty then s
  else
    match s.headers with
    | none =>
        let buffer := s.buffer ++ recordsArray
        if INITIAL_BUFFER_SIZE ≤ buffer.length then
          let flattenedBuffer := buffer.map flattenObject
          let hadTruncation :=
            s.hadTruncation || flattenedBuffer.any recordHasTruncMarker
          let hs := sortedHeaders flattenedBuffer
          { buffer := [],
            headers := some hs,
            recordCount := flattenedBuffer.length,
            hadTruncation := hadTruncation,
            schemaDriftDetected := s.schemaDriftDetected,
            ops := s.ops ++
              [FileOp.writeFile hs (flattenedBuffer.map (projectRow hs))] }
        else { s with buffer := buffer }
    | some hs =>
        let flattenedRecords := recordsArray.map flattenObject
        let hadTruncation :=
          s.hadTruncation || flattenedRecords.any recordHasTruncMarker
        let newFields :=
          ((flattenedRecords.map keysOf).flatten.filter
            (fun k => !hs.contains k)).dedup
        let schemaDriftDetected :=
          s.schemaDriftDetected || !newFields.isEmpty
        { s with
          recordCount := s.recordCount + flattenedRecords.length,
          hadTruncation := hadTruncation,
          schemaDriftDetected := schemaDriftDetected,
          ops := s.ops ++
            [FileOp.appendFile hs (flattenedRecords.map (projectRow hs))] }

def processBatches : WState → List (List Record) → WState
  | s, [] => s
  | s, b :: rest => processBatches (processBatch s b) rest

/-- The post-loop step of `streamCSVToFile` (lines 916-932): if the
sequence ended while still buffering with a non-empty buffer, lock the
headers from what was buffered and perform the single write.  The source
performs no truncation scan on this path (it maps `flattenObject` bare,
unlike the two in-loop paths). -/
def finalize (s : WState) : WState :=
  match s.headers with
  | none =>
      if s.buffer.isEmpty then s
      else
        let flattenedBuffer := s.buffer.map flattenObject
        let hs := sortedHeaders flattenedBuffer
        { s with
          headers := some hs,
          recordCount := flattenedBuffer.length,
          ops := s.ops ++
            [FileOp.writeFile hs (flattenedBuffer.map (projectRow hs))] }
  | some _ => s

def initState : WState :=
  { buffer := [], headers := none, recordCount := 0,
    hadTruncation := false, schemaDriftDetected := false, ops := [] }

/-- Run the writer over a sequence of record batches. -/
def streamBatches (bs : List (List Record)) : WState :=
  finalize (processBatches initState bs)

/-- An element produced by an async iterator: either an array batch or a
bare (non-array) record, which the writer wraps as a one-record batch. -/
inductive BatchElem where
  | arr (records : List Record)
  | single (r : Record)


/-- The writer's public input: an async iterator of batch elements, or a
plain in-memory array (which has no `Symbol.asyncIterator`). -/
inductive StreamInput where
  | asyncIter (elems : List BatchElem)
  | plainArr (records : List Record)


def elemToBatch : BatchElem → List Record
  | .arr records => records
  | .single r => [r]

/-- The input normalization at the top of `streamCSVToFile`: a non-async
iterable is wrapped as `[records]`, and each loop element that is not an
array is wrapped as `[batch]`. -/
def inputBatches : StreamInput → List (List Record)
  | .asyncIter elems => elems.map elemToBatch
  | .plainArr records => [records]

def streamCSVToFile (input : StreamInput) : WState :=
  streamBatches (inputBatches input)

/-- The summary `streamCSVToFile` returns. -/
structure ExportResult where
  recordCount : Nat
  hadTruncation : Bool
  schemaDriftDetected : Bool


def exportResultOf (s : WState) : ExportResult :=
  ⟨s.recordCount, s.hadTruncation, s.schemaDriftDetected⟩

/-! ## Backoff policy (`calculateBackoff`, rate-limiter.js lines 70-81) -/

/-- `calculateBackoff(attemptNumber, initialBackoff, maxBackoff)` with the
random source injected: `Math.random()` is the parameter `rand`, a
rational in `[0, 1)`.  `Math.floor` is the floor into the integers. -/
def calculateBackoff (attemptNumber : Nat) (initialBackoff maxBackoff : ℚ)
    (rand : ℚ) : ℤ :=
  let exponentialDelay : ℚ := 2 ^ attemptNumber * initialBackoff
  let cappedDelay : ℚ := min exponentialDelay maxBackoff
  let jitter : ℚ := cappedDelay * (1 / 4) * rand
  ⌊cappedDelay + jitter⌋

/-! ## Retry executor (`withRetry`, rate-limiter.js lines 92-163) -/

/-- The value of `parseFloat` on the `Retry-After` header: a JS double,
which the retry logic can observe as NaN, an infinity, or a finite
number (modelled exactly as a rational). -/
inductive JSNum where
  | nan
  | posInf
  | negInf
  | fin (q : ℚ)
deriving DecidableEq

/-- `isNaN(v)`. -/
def JSNum.isNaNb : JSNum → Bool
  | .nan => true
  | _ => false

/-- `v > 0` in JS comparison semantics (`NaN > 0` is false,
`Infinity > 0` is true). -/
def JSNum.gtZero : JSNum → Bool
  | .nan => false
  | .posInf => true
  | .negInf => false
  | .fin q => decide (0 < q)

/-- `Math.ceil(v * 1000)`: the Retry-After hint converted to
milliseconds. -/
def retryAfterToMs : JSNum → JSNum
  | .fin q => .fin ((⌈q * 1000⌉ : ℤ) : ℚ)
  | .posInf => .posInf
  | .negInf => .negInf
  | .nan => .nan

/-- The error a failed call carries, as the retry executor reads it:
`error.response?.status`, the parsed `Retry-After` header when the header
is present and non-empty (`retryAfter = none` covers both an absent
header and a falsy empty one), and `error.code`. -/
structure JSError where
  status : Option Nat
  retryAfter : Option JSNum
  code : Option String

/-- `error.response?.status === 429`. -/
def isRateLimitError (e : JSError) : Bool :=
  e.status == some 429

/-- `shouldRetry`: a 429, a status of at least 500 (an absent status
compares false), or a connection-reset or timeout transport code. -/
def isRetryable (e : JSError) : Bool :=
  isRateLimitError e ||
    (match e.status with
     | some s => decide (500 ≤ s)
     | none => false) ||
    e.code == some "ECONNRESET" ||
    e.code == some "ETIMEDOUT"

/-- The delay selection of `withRetry` (lines 122-142): on a 429 whose
parsed `Retry-After` value passes `!isNaN(v) && v > 0`, use
`Math.ceil(v * 1000)` and mark `useRetryAfter`; otherwise fall back to
`calculateBackoff`.  Returns `(useRetryAfter, backoffDelay)`. -/
def computeRetryDelay (e : JSError) (attempt : Nat)
    (initialBackoff maxBackoff rand : ℚ) : Bool × JSNum :=
  match isRateLimitError e, e.retryAfter with
  | true, some v =>
      if v.isNaNb = false ∧ v.gtZero = true then
        (true, retryAfterToMs v)
      else
        (false, .fin ((calculateBackoff attempt initialBackoff maxBackoff
          rand : ℤ) : ℚ))
  | _, _ =>
      (false, .fin ((calculateBackoff attempt initialBackoff maxBackoff
        rand : ℤ) : ℚ))

/-- What one run of `withRetry` did: the value returned or error thrown,
how many times the wrapped call was invoked, and the delays waited
between attempts (each tagged with its `useRetryAfter` flag). -/
structure RetryTrace (T : Type) where
  result : Except JSError T
  invocations : Nat
  delays : List (Bool × JSNum)

/-- The retry loop, with `attempt` the current index and `remaining` the
attempts still allowed after this one (`remaining = 0` is the final
attempt, `attempt === maxRetries` in the source).  `call i` is the
outcome of the i-th invocation of the wrapped call; `rand i` the value
`Math.random()` yields when computing the delay after attempt `i`. -/
def withRetryGo {T : Type} (call : Nat → Except JSError T) (rand : Nat → ℚ)
    (initialBackoff maxBackoff : ℚ) (attempt : Nat) :
    Nat → RetryTrace T
  | 0 =>
      match call attempt with
      | .ok v => ⟨.ok v, 1, []⟩
      | .error e => ⟨.error e, 1, []⟩
  | remaining + 1 =>
      match call attempt with
      | .ok v => ⟨.ok v, 1, []⟩
      | .error e =>
          if isRetryable e then
            let d := computeRetryDelay e attempt initialBackoff maxBackoff
              (rand attempt)
            let t := withRetryGo call rand initialBackoff maxBackoff
              (attempt + 1) remaining
            ⟨t.result, t.invocations + 1, d :: t.delays⟩
          else ⟨.error e, 1, []⟩

/-- `withRetry(apiCall, { maxRetries, initialBackoff, maxBackoff })`. -/
def withRetry {T : Type} (call : Nat → Except JSError T) (rand : Nat → ℚ)
    (maxRetries : Nat) (initialBackoff maxBackoff : ℚ) : RetryTrace T :=
  withRetryGo call rand initialBackoff maxBackoff 0 maxRetries

/-! ## Paginated fetcher (`fetchExperimentRecordsWithPagination`,
part_003 lines 627-683) -/

/-- A page of the remote collection: `{ events, cursor }`. -/
structure Page (α : Type) where
  events : List α
  cursor : Option String

/-- JS truthiness of the cursor: present and non-empty. -/
def cursorPresent : Option String → Bool
  | none => false
  | some s => !(s == "")

/-- `hasMore = cursor && response.events && response.events.length > 0`. -/
def pageContinues {α : Type} (p : Page α) : Bool :=
  cursorPresent p.cursor && !p.events.isEmpty

/-- The batches the paginated fetcher yields, given the successive pages
the remote returns: a page's events are yielded when non-empty, and the
loop continues only while the returned cursor is present and the page
was non-empty. -/
def fetchExperimentRecordsWithPagination {α : Type} :
    List (Page α) → List (List α)
  | [] => []
  | p :: rest =>
      (if p.events.isEmpty then [] else [p.events]) ++
        (if pageContinues p then fetchExperimentRecordsWithPagination rest
         else [])

/-- How many page requests the fetcher issues against the same remote
script: one per loop iteration. -/
def fetchRequests {α : Type} : List (Page α) → Nat
  | [] => 0
  | p :: rest => 1 + (if pageContinues p then fetchRequests rest else 0)

/-! ## Orchestrator (`exportProjectData` and `sanitizeFilename`,
part_003 lines 1023-1119) -/

/-- One character of `name.replace(/[^a-z0-9]/gi, '_').toLowerCase()`. -/
def sanitizeChar (c : Char) : Char :=
  if c.isAlphanum then c.toLower else '_'

/-- Collapse runs of underscores to one (`replace(/_+/g, '_')`). -/
def collapseUnderscores : List Char → List Char
  | [] => []
  | '_' :: rest =>
      match collapseUnderscores rest with
      | '_' :: tail => '_' :: tail
      | tail => '_' :: tail
  | c :: rest => c :: collapseUnderscores rest

/-- `sanitizeFilename(name, id)`: non-alphanumerics to `_`, lowercase,
collapse repeats, trim edge underscores, fall back to an id-derived name
when empty, and append the first 8 characters of the id. -/
def sanitizeFilename (name : String) (id : Option String) : String :=
  let collapsed :=
    collapseUnderscores (name.data.map sanitizeChar)
  let trimmed :=
    ((collapsed.dropWhile (fun c => c == '_')).reverse.dropWhile
      (fun c => c == '_')).reverse
  let sanitized := String.mk trimmed
  let sanitized :=
    if sanitized = "" ∨ trimmed.all (fun c => c == '_') then
      match id with
      | some i => String.mk (i.data.take 8)
      | none => "unnamed"
    else sanitized
  match id with
  | some i => sanitized ++ "_" ++ String.mk (i.data.take 8)
  | none => sanitized

/-- An experiment or dataset as the orchestrator sees it. -/
structure Entity where
  id : String
  name : Option String

/-- `entity.name || entity.id`. -/
def entityDisplayName (e : Entity) : String :=
  match e.name with
  | some n => n
  | none => e.id

/-- `path.join(dir, `${safeName}.csv`)`. -/
def entityFilePath (dir : String) (e : Entity) : String :=
  dir ++ "/" ++ sanitizeFilename (entityDisplayName e) (some e.id) ++ ".csv"

/-- What one orchestrator run reports: the entities whose export was
attempted (in order), those whose export threw (caught and logged), and
the files written with their export summaries. -/
structure ExportReport where
  attempted : List String
  failures : List String
  files : List (String × ExportResult)

/-- One `for (const entity of entities)` loop of `exportProjectData`:
each entity's fetch-and-stream body runs inside its own try/catch, so a
throw (here: `fetch e = .error`) is recorded and the loop moves on. -/
def exportEntities (dir : String)
    (fetch : Entity → Except String (List (List Record))) :
    List Entity → ExportReport
  | [] => ⟨[], [], []⟩
  | e :: rest =>
      let r := exportEntities dir fetch rest
      match fetch e with
      | .error _ =>
          ⟨e.id :: r.attempted, e.id :: r.failures, r.files⟩
      | .ok bs =>
          ⟨e.id :: r.attempted, r.failures,
            (entityFilePath dir e, exportResultOf (streamBatches bs)) ::
              r.files⟩

/-- `exportProjectData`, from the point where the experiment and dataset
lists are in hand: the experiments loop runs first, then the datasets
loop; each uses its own destination directory and record source. -/
def exportProjectData (experimentsDir datasetsDir : String)
    (fetchExp fetchDs : Entity → Except String (List (List Record)))
    (experiments datasets : List Entity) : ExportReport :=
  let r1 := exportEntities experimentsDir fetchExp experiments
  let r2 := exportEntities datasetsDir fetchDs datasets
  ⟨r1.attempted ++ r2.attempted, r1.failures ++ r2.failures,
    r1.files ++ r2.files⟩

/-! ## Writer lemmas -/

/-- The state the writer is in immediately after locking the header set
with buffered records `l` (the source's lines 830-864). -/
def lockedState (s : WState) (l : List Record) : WState :=
  let flats := l.map flattenObject
  let hs := sortedHeaders flats
  { buffer := [],
    headers := some hs,
    recordCount := flats.length,
    hadTruncation := s.hadTruncation || flats.any recordHasTruncMarker,
    schemaDriftDetected := s.schemaDriftDetected,
    ops := s.ops ++ [FileOp.writeFile hs (flats.map (projectRow hs))] }

theorem processBatch_nil (s : WState) : processBatch s [] = s := rfl

theorem processBatches_append (l1 l2 : List (List Record)) :
    ∀ s, processBatches s (l1 ++ l2) =
      processBatches (processBatches s l1) l2 := by
  induction l1 with
  | nil => intro s; rfl
  | cons b rest ih =>
      intro s
      rw [List.cons_append]
      show processBatches (processBatch s b) (rest ++ l2) = _
      rw [ih]
      rfl

theorem processBatches_two (s : WState) (b1 b2 : List Record) :
    processBatches s [b1, b2] = processBatch (processBatch s b1) b2 := rfl

theorem processBatch_buffering (s : WState) (b : List Record)
    (hh : s.headers = none) (hlen : (s.buffer ++ b).length < 1000) :
    processBatch s b = { s with buffer := s.buffer ++ b } := by
  cases b with
  | nil => simp [processBatch]
  | cons r rest =>
      rw [processBatch]
      simp only [List.isEmpty_cons, hh]
      rw [if_neg (by simp), if_neg (by simpa [INITIAL_BUFFER_SIZE] using Nat.not_le.2 hlen)]

theorem processBatch_lock (s : WState) (b : List Record)
    (hh : s.headers = none) (hb : b ≠ [])
    (hlen : 1000 ≤ (s.buffer ++ b).length) :
    processBatch s b = lockedState s (s.buffer ++ b) := by
  cases b with
  | nil => exact absurd rfl hb
  | cons r rest =>
      rw [processBatch]
      simp only [List.isEmpty_cons, hh]
      rw [if_neg (by simp), if_pos (by simpa [INITIAL_BUFFER_SIZE] using hlen)]
      rfl

theorem processBatches_allEmpty (bs : List (List Record))
    (h : ∀ b ∈ bs, b = []) : ∀ s, processBatches s bs = s := by
  induction bs with
  | nil => intro s; rfl
  | cons b rest ih =>
      intro s
      have hb : b = [] := h b (by simp)
      subst hb
      simp only [processBatches, processBatch_nil]
      exact ih (fun b hb => h b (by simp [hb])) s

theorem processBatches_buffering (bs : List (List Record)) :
    ∀ s, s.headers = none → (s.buffer ++ bs.flatten).length < 1000 →
      processBatches s bs = { s with buffer := s.buffer ++ bs.flatten } := by
  induction bs with
  | nil => intro s _ _; simp [processBatches]
  | cons b rest ih =>
      intro s hh hlen
      rw [List.flatten_cons, List.length_append, List.length_append] at hlen
      have hstep : processBatch s b = { s with buffer := s.buffer ++ b } :=
        processBatch_buffering s b hh
          (by rw [List.length_append]; omega)
      show processBatches (processBatch s b) rest = _
      rw [hstep, ih { s with buffer := s.buffer ++ b } hh
        (by rw [List.length_append, List.length_append]; omega)]
      simp only [List.flatten_cons, List.append_assoc]

theorem processBatches_lock (bs : List (List Record)) :
    ∀ s, s.headers = none → s.buffer.length < 1000 →
      (s.buffer ++ bs.flatten).length = 1000 →
      processBatches s bs = lockedState s (s.buffer ++ bs.flatten) := by
  induction bs with
  | nil =>
      intro s _ hbuf hlen
      rw [List.flatten_nil, List.append_nil] at hlen
      omega
  | cons b rest ih =>
      intro s hh hbuf hlen
      rw [List.flatten_cons, List.length_append, List.length_append] at hlen
      by_cases hble : 1000 ≤ (s.buffer ++ b).length
      · -- the buffer reaches the threshold on this batch; since the grand
        -- total is exactly 1000, every later batch is empty
        rw [List.length_append] at hble
        have hb : b ≠ [] := by
          intro hbnil
          subst hbnil
          simp only [List.length_nil] at hble
          omega
        have hrestlen : rest.flatten.length = 0 := by omega
        have hrest : rest.flatten = [] := List.length_eq_zero.1 hrestlen
        have hallnil : ∀ x ∈ rest, x = [] :=
          fun x hx => List.flatten_eq_nil_iff.1 hrest x hx
        show processBatches (processBatch s b) rest = _
        rw [processBatch_lock s b hh hb (by rw [List.length_append]; omega),
          processBatches_allEmpty rest hallnil]
        rw [List.flatten_cons]
        rw [show b ++ rest.flatten = b from by rw [hrest, List.append_nil]]
      · rw [List.length_append] at hble
        have hstep : processBatch s b = { s with buffer := s.buffer ++ b } :=
          processBatch_buffering s b hh (by rw [List.length_append]; omega)
        show processBatches (processBatch s b) rest = _
        rw [hstep, ih { s with buffer := s.buffer ++ b } hh
          (by rw [List.length_append]; omega)
          (by rw [List.length_append, List.length_append]; omega)]
        simp only [lockedState, List.flatten_cons, List.append_assoc]

theorem processBatch_streaming (s : WState) (b : List Record)
    (hs : List String) (hh : s.headers = some hs) (hb : b ≠ []) :
    processBatch s b = { s with
      recordCount := s.recordCount + (b.map flattenObject).length,
      hadTruncation :=
        s.hadTruncation || (b.map flattenObject).any recordHasTruncMarker,
      schemaDriftDetected := s.schemaDriftDetected ||
        !(((b.map flattenObject).map keysOf).flatten.filter
          (fun k => !hs.contains k)).dedup.isEmpty,
      ops := s.ops ++
        [FileOp.appendFile hs ((b.map flattenObject).map (projectRow hs))] } := by
  cases b with
  | nil => exact absurd rfl hb
  | cons r rest =>
      rw [processBatch]
      simp only [List.isEmpty_cons, hh]
      rw [if_neg (by simp)]

theorem processBatch_headers_locked (s : WState) (b : List Record)
    (hs : List String) (hh : s.headers = some hs) :
    (processBatch s b).headers = some hs := by
  by_cases hb : b = []
  · subst hb; rw [processBatch_nil]; exact hh
  · rw [processBatch_streaming s b hs hh hb]; exact hh

theorem processBatch_count_locked (s : WState) (b : List Record)
    (hs : List String) (hh : s.headers = some hs) :
    (processBatch s b).recordCount = s.recordCount + b.length := by
  by_cases hb : b = []
  · subst hb; rw [processBatch_nil]; simp
  · rw [processBatch_streaming s b hs hh hb]; simp

theorem processBatches_headers_locked (bs : List (List Record)) :
    ∀ s hs, s.headers = some hs →
      (processBatches s bs).headers = some hs := by
  induction bs with
  | nil => intro s hs hh; exact hh
  | cons b rest ih =>
      intro s hs hh
      exact ih (processBatch s b) hs (processBatch_headers_locked s b hs hh)

theorem processBatches_count_locked (bs : List (List Record)) :
    ∀ s hs, s.headers = some hs →
      (processBatches s bs).recordCount = s.recordCount + bs.flatten.length := by
  induction bs with
  | nil => intro s hs _; simp [processBatches]
  | cons b rest ih =>
      intro s hs hh
      show (processBatches (processBatch s b) rest).recordCount = _
      rw [ih (processBatch s b) hs (processBatch_headers_locked s b hs hh),
        processBatch_count_locked s b hs hh]
      rw [List.flatten_cons, List.length_append]
      omega

theorem processBatch_drift_mono (s : WState) (b : List Record)
    (h : s.schemaDriftDetected = true) :
    (processBatch s b).schemaDriftDetected = true := by
  rw [processBatch]
  by_cases hb : b.isEmpty
  · rw [if_pos hb]; exact h
  · rw [if_neg hb]
    cases hh : s.headers with
    | none =>
        by_cases hlen : INITIAL_BUFFER_SIZE ≤ (s.buffer ++ b).length
        · rw [if_pos hlen]; exact h
        · rw [if_neg hlen]; exact h
    | some hs => simp [h]

theorem processBatches_drift_mono (bs : List (List Record)) :
    ∀ s, s.schemaDriftDetected = true →
      (processBatches s bs).schemaDriftDetected = true := by
  induction bs with
  | nil => intro s h; exact h
  | cons b rest ih =>
      intro s h
      exact ih _ (processBatch_drift_mono s b h)

theorem processBatch_drift_trigger (s : WState) (b : List Record)
    (hs : List String) (hh : s.headers = some hs)
    (hex : ∃ r ∈ b, ∃ k ∈ keysOf (flattenObject r), hs.contains k = false) :
    (processBatch s b).schemaDriftDetected = true := by
  obtain ⟨r, hrb, k, hk, hkc⟩ := hex
  have hb : b ≠ [] := by
    intro hbnil; subst hbnil; simp at hrb
  rw [processBatch_streaming s b hs hh hb]
  simp only [Bool.or_eq_true]
  right
  have hmem : k ∈ (((b.map flattenObject).map keysOf).flatten.filter
      (fun k => !hs.contains k)).dedup := by
    rw [List.mem_dedup, List.mem_filter]
    refine ⟨?_, by rw [hkc]; rfl⟩
    rw [List.mem_flatten]
    exact ⟨keysOf (flattenObject r),
      List.mem_map_of_mem keysOf (List.mem_map_of_mem flattenObject hrb),
      hk⟩
  have hne : (((b.map flattenObject).map keysOf).flatten.filter
      (fun k => !hs.contains k)).dedup ≠ [] := by
    intro hdnil
    rw [hdnil] at hmem
    simp at hmem
  rw [← List.isEmpty_eq_false] at hne
  rw [hne]
  rfl

theorem processBatches_drift_trigger (bs : List (List Record)) :
    ∀ s hs, s.headers = some hs →
      (∃ r ∈ bs.flatten, ∃ k ∈ keysOf (flattenObject r),
        hs.contains k = false) →
      (processBatches s bs).schemaDriftDetected = true := by
  induction bs with
  | nil =>
      intro s hs _ hex
      obtain ⟨r, hr, -⟩ := hex
      simp at hr
  | cons b rest ih =>
      intro s hs hh hex
      obtain ⟨r, hr, k, hk, hkc⟩ := hex
      rw [List.flatten_cons, List.mem_append] at hr
      show (processBatches (processBatch s b) rest).schemaDriftDetected = true
      rcases hr with hrb | hrrest
      · -- the drifted record is in this batch: the step sets the flag,
        -- and drift is monotone afterwards
        exact processBatches_drift_mono rest (processBatch s b)
          (processBatch_drift_trigger s b hs hh ⟨r, hrb, k, hk, hkc⟩)
      · exact ih (processBatch s b) hs (processBatch_headers_locked s b hs hh)
          ⟨r, hrrest, k, hk, hkc⟩

theorem processBatches_ops_locked (bs : List (List Record)) :
    ∀ s hs, s.headers = some hs →
      ∃ newOps, (processBatches s bs).ops = s.ops ++ newOps ∧
        (∀ op ∈ newOps, op.headersOf = hs) ∧
        (newOps.map (fun op => op.rowsOf.length)).sum = bs.flatten.length ∧
        (∀ op ∈ newOps, ∀ row ∈ op.rowsOf, row.length = hs.length) := by
  induction bs with
  | nil =>
      intro s hs _
      exact ⟨[], by simp [processBatches], by simp, by simp, by simp⟩
  | cons b rest ih =>
      intro s hs hh
      obtain ⟨newOps, h1, h2, h3, h4⟩ :=
        ih (processBatch s b) hs (processBatch_headers_locked s b hs hh)
      by_cases hb : b = []
      · subst hb
        rw [processBatch_nil] at h1
        exact ⟨newOps, h1, h2, by simpa using h3, h4⟩
      · refine ⟨FileOp.appendFile hs ((b.map flattenObject).map
          (projectRow hs)) :: newOps, ?_, ?_, ?_, ?_⟩
        · show (processBatches (processBatch s b) rest).ops = _
          rw [h1, processBatch_streaming s b hs hh hb]
          simp [List.append_assoc]
        · intro op hop
          rcases List.mem_cons.1 hop with hop | hop
          · subst hop; rfl
          · exact h2 op hop
        · rw [List.map_cons, List.sum_cons, h3]
          simp [FileOp.rowsOf]
        · intro op hop row hrow
          rcases List.mem_cons.1 hop with hop | hop
          · subst hop
            simp only [FileOp.rowsOf] at hrow
            obtain ⟨f, -, hf⟩ := List.mem_map.1 hrow
            rw [← hf]
            simp [projectRow]
          · exact h4 op hop row hrow

theorem finalize_locked (s : WState) (hs : List String)
    (hh : s.headers = some hs) : finalize s = s := by
  rw [finalize, hh]

theorem finalize_empty (s : WState) (hh : s.headers = none)
    (hb : s.buffer = []) : finalize s = s := by
  rw [finalize, hh, if_pos (by rw [hb]; rfl)]

theorem finalize_write (s : WState) (hh : s.headers = none)
    (hb : s.buffer ≠ []) :
    finalize s = { s with
      headers := some (sortedHeaders (s.buffer.map flattenObject)),
      recordCount := (s.buffer.map flattenObject).length,
      ops := s.ops ++ [FileOp.writeFile
        (sortedHeaders (s.buffer.map flattenObject))
        ((s.buffer.map flattenObject).map
          (projectRow (sortedHeaders (s.buffer.map flattenObject))))] } := by
  rw [finalize, hh, if_neg (by rw [List.isEmpty_iff]; exact hb)]

/-! ## Header-set lemmas -/

theorem mem_sortedHeaders (flats : List (List (String × Value)))
    (k : String) :
    k ∈ sortedHeaders flats ↔ ∃ f ∈ flats, k ∈ keysOf f := by
  rw [sortedHeaders, sortKeys]
  rw [(List.perm_insertionSort _ _).mem_iff, List.mem_dedup, List.mem_flatten]
  constructor
  · rintro ⟨kl, hkl, hk⟩
    obtain ⟨f, hf, rfl⟩ := List.mem_map.1 hkl
    exact ⟨f, hf, hk⟩
  · rintro ⟨f, hf, hk⟩
    exact ⟨keysOf f, List.mem_map_of_mem keysOf hf, hk⟩

theorem sortedHeaders_eq (flats : List (List (String × Value)))
    (target : List String)
    (hmem : ∀ k, (∃ f ∈ flats, k ∈ keysOf f) ↔ k ∈ target)
    (hnd : target.Nodup)
    (hsort : List.Sorted (fun a b : String => a ≤ b) target) :
    sortedHeaders flats = target := by
  have hnodupS : (sortKeys ((flats.map keysOf).flatten.dedup)).Nodup :=
    ((List.perm_insertionSort _ _).nodup_iff).2
      ((flats.map keysOf).flatten.nodup_dedup)
  have hperm : List.Perm (sortKeys ((flats.map keysOf).flatten.dedup)) target :=
    (List.perm_ext_iff_of_nodup hnodupS hnd).2
      (fun a => (mem_sortedHeaders flats a).trans (hmem a))
  exact List.eq_of_perm_of_sorted hperm
    (List.sorted_insertionSort _ _) hsort

/-! ## Buffer-bound lemmas -/

theorem processBatch_buffer_bound (s : WState) (b : List Record)
    (h : s.buffer.length ≤ 999) :
    (processBatch s b).buffer.length ≤ 999 := by
  by_cases hb : b = []
  · subst hb; rw [processBatch_nil]; exact h
  · cases hh : s.headers with
    | some hs => rw [processBatch_streaming s b hs hh hb]; exact h
    | none =>
        by_cases hlen : 1000 ≤ (s.buffer ++ b).length
        · rw [processBatch_lock s b hh hb hlen]
          simp [lockedState]
        · rw [processBatch_buffering s b hh (by omega)]
          show (s.buffer ++ b).length ≤ 999
          omega

theorem processBatches_buffer_bound (bs : List (List Record)) :
    ∀ s, s.buffer.length ≤ 999 →
      (processBatches s bs).buffer.length ≤ 999 := by
  induction bs with
  | nil => intro s h; exact h
  | cons b rest ih =>
      intro s h
      exact ih (processBatch s b) (processBatch_buffer_bound s b h)

/-! ## Sample concrete records -/

/-- A record with exactly the scalar keys `x` and `y`. -/
def recXY : Record := [("x", Value.vNum 1), ("y", Value.vNum 2)]

/-- A record with exactly the scalar keys `x`, `y` and `z`. -/
def recXYZ : Record :=
  [("x", Value.vNum 1), ("y", Value.vNum 2), ("z", Value.vNum 3)]

theorem keysOf_recXY : keysOf (flattenObject recXY) = ["x", "y"] := rfl

theorem keysOf_recXYZ : keysOf (flattenObject recXYZ) = ["x", "y", "z"] := rfl

/-! ## Claim theorems -/

/-- C10: `streamCSVToFile` accepts a plain in-memory array as well as an
async iterator: a non-async-iterable input is treated as the single
batch holding all of its records, and a batch element that is not an
array is wrapped as a one-record batch; hence the result on a plain
array equals the result on the one-batch sequence holding that array. -/
theorem streamCSVToFile_input_normalization :
    (∀ rs : List Record,
      streamCSVToFile (.plainArr rs) =
        streamCSVToFile (.asyncIter [.arr rs])) ∧
    (∀ (r : Record) (elems : List BatchElem),
      streamCSVToFile (.asyncIter (.single r :: elems)) =
        streamCSVToFile (.asyncIter (.arr [r] :: elems))) :=
  ⟨fun _ => rfl, fun _ _ => rfl⟩

/-- C6: at every inter-batch point of a `streamCSVToFile` run the count
of buffered-but-not-yet-written records never exceeds 1000 (the source
keeps it at 999 or fewer; a transient excess can exist only inside the
processing of a single batch, between the push and the flush). -/
theorem streamCSVToFile_buffer_bound (input : StreamInput) (k : Nat) :
    (processBatches initState ((inputBatches input).take k)).buffer.length
      ≤ 1000 :=
  Nat.le_trans
    (processBatches_buffer_bound ((inputBatches input).take k) initState
      (by simp [initState]))
    (by omega)

/-! ## Retry-loop lemmas -/

theorem withRetryGo_all_retryable {T : Type} (call : Nat → Except JSError T)
    (rand : Nat → ℚ) (iB mB : ℚ) :
    ∀ (remaining attempt : Nat),
      (∀ i, attempt ≤ i → i ≤ attempt + remaining →
        ∃ e, call i = .error e ∧ isRetryable e = true) →
      (withRetryGo call rand iB mB attempt remaining).result =
        call (attempt + remaining) ∧
      (withRetryGo call rand iB mB attempt remaining).invocations =
        remaining + 1 := by
  intro remaining
  induction remaining with
  | zero =>
      intro attempt h
      obtain ⟨e, he, -⟩ := h attempt le_rfl (by omega)
      rw [withRetryGo, he]
      exact ⟨by rw [Nat.add_zero, he], rfl⟩
  | succ rem ih =>
      intro attempt h
      obtain ⟨e, he, hr⟩ := h attempt le_rfl (by omega)
      rw [withRetryGo, he]
      dsimp only
      rw [if_pos hr]
      obtain ⟨ihr, ihn⟩ := ih (attempt + 1)
        (fun i hi1 hi2 => h i (by omega) (by omega))
      refine ⟨?_, ?_⟩
      · show (withRetryGo call rand iB mB (attempt + 1) rem).result = _
        rw [ihr]
        exact congrArg call (by omega)
      · show (withRetryGo call rand iB mB (attempt + 1) rem).invocations + 1 = _
        rw [ihn]

theorem withRetryGo_stops_nonretryable {T : Type}
    (call : Nat → Except JSError T) (rand : Nat → ℚ) (iB mB : ℚ) :
    ∀ (j remaining attempt : Nat), j ≤ remaining →
      (∀ i, attempt ≤ i → i < attempt + j →
        ∃ e, call i = .error e ∧ isRetryable e = true) →
      (∃ e, call (attempt + j) = .error e ∧ isRetryable e = false) →
      (withRetryGo call rand iB mB attempt remaining).result =
        call (attempt + j) ∧
      (withRetryGo call rand iB mB attempt remaining).invocations = j + 1 := by
  intro j
  induction j with
  | zero =>
      intro remaining attempt _ _ hstop
      obtain ⟨e, he, hnr⟩ := hstop
      rw [Nat.add_zero] at he ⊢
      cases remaining with
      | zero =>
          rw [withRetryGo, he]
          exact ⟨rfl, rfl⟩
      | succ rem =>
          rw [withRetryGo, he]
          dsimp only
          rw [if_neg (by rw [hnr]; exact Bool.false_ne_true)]
          exact ⟨rfl, rfl⟩
  | succ j ih =>
      intro remaining attempt hjr hpre hstop
      cases remaining with
      | zero => omega
      | succ rem =>
          obtain ⟨e, he, hr⟩ := hpre attempt le_rfl (by omega)
          rw [withRetryGo, he]
          dsimp only
          rw [if_pos hr]
          obtain ⟨ihr, ihn⟩ := ih rem (attempt + 1) (by omega)
            (fun i hi1 hi2 => hpre i (by omega) (by omega))
            (by
              obtain ⟨e2, he2, hnr2⟩ := hstop
              refine ⟨e2, ?_, hnr2⟩
              have harith : attempt + 1 + j = attempt + (j + 1) := by omega
              rw [harith]
              exact he2)
          refine ⟨?_, ?_⟩
          · show (withRetryGo call rand iB mB (attempt + 1) rem).result = _
            rw [ihr]
            exact congrArg call (by omega)
          · show (withRetryGo call rand iB mB (attempt + 1) rem).invocations
              + 1 = _
            rw [ihn]

/-- C2: when every invocation fails with a retryable error (status 429,
status at least 500, or a connection-reset or timeout code), `withRetry`
invokes the call exactly `maxRetries + 1` times and then propagates the
last error unchanged; when an invocation fails with a non-retryable
error, it propagates that error immediately with no further
invocations. -/
theorem withRetry_attempt_counts {T : Type} (call : Nat → Except JSError T)
    (rand : Nat → ℚ) (maxRetries : Nat) (iB mB : ℚ) :
    ((∀ i, i ≤ maxRetries → ∃ e, call i = .error e ∧ isRetryable e = true) →
      (withRetry call rand maxRetries iB mB).result = call maxRetries ∧
      (withRetry call rand maxRetries iB mB).invocations = maxRetries + 1) ∧
    (∀ k, k ≤ maxRetries →
      (∀ i, i < k → ∃ e, call i = .error e ∧ isRetryable e = true) →
      (∃ e, call k = .error e ∧ isRetryable e = false) →
      (withRetry call rand maxRetries iB mB).result = call k ∧
      (withRetry call rand maxRetries iB mB).invocations = k + 1) := by
  constructor
  · intro h
    have := withRetryGo_all_retryable call rand iB mB maxRetries 0
      (fun i hi1 hi2 => h i (by omega))
    rwa [Nat.zero_add] at this
  · intro k hk hpre hstop
    have := withRetryGo_stops_nonretryable call rand iB mB k maxRetries 0 hk
      (fun i hi1 hi2 => hpre i (by omega))
      (by rwa [Nat.zero_add])
    rwa [Nat.zero_add] at this

/-- Witness for C2: a call that always fails with status 500 under
`maxRetries = 2` is invoked exactly 3 times and the error is then
raised; a call failing with status 404 is not retried at all. -/
theorem withRetry_attempt_counts_witness :
    (withRetry (fun _ => (Except.error ⟨some 500, none, none⟩ :
      Except JSError Unit)) (fun _ => 0) 2 500 30000).invocations = 3 ∧
    (withRetry (fun _ => (Except.error ⟨some 500, none, none⟩ :
      Except JSError Unit)) (fun _ => 0) 2 500 30000).result =
      Except.error ⟨some 500, none, none⟩ ∧
    (withRetry (fun _ => (Except.error ⟨some 404, none, none⟩ :
      Except JSError Unit)) (fun _ => 0) 5 500 30000).invocations = 1 := by
  refine ⟨?_, ?_, ?_⟩
  · exact ((withRetry_attempt_counts
      (fun _ => (Except.error ⟨some 500, none, none⟩ : Except JSError Unit))
      (fun _ => 0) 2 500 30000).1
      (fun i _ => ⟨⟨some 500, none, none⟩, rfl, rfl⟩)).2
  · exact ((withRetry_attempt_counts
      (fun _ => (Except.error ⟨some 500, none, none⟩ : Except JSError Unit))
      (fun _ => 0) 2 500 30000).1
      (fun i _ => ⟨⟨some 500, none, none⟩, rfl, rfl⟩)).1
  · exact ((withRetry_attempt_counts
      (fun _ => (Except.error ⟨some 404, none, none⟩ : Except JSError Unit))
      (fun _ => 0) 5 500 30000).2 0 (by omega)
      (fun i hi => absurd hi (by omega))
      ⟨⟨some 404, none, none⟩, rfl, rfl⟩).2

/-! ## Fetcher lemmas -/

theorem pageContinues_events_ne_nil {α : Type} (p : Page α)
    (h : pageContinues p = true) : p.events ≠ [] := by
  rw [pageContinues, Bool.and_eq_true] at h
  intro hnil
  rw [hnil] at h
  simp at h

theorem fetch_batches_nonempty {α : Type} :
    ∀ pages : List (Page α),
      ∀ b ∈ fetchExperimentRecordsWithPagination pages, b ≠ [] := by
  intro pages
  induction pages with
  | nil => intro b hb; simp [fetchExperimentRecordsWithPagination] at hb
  | cons p rest ih =>
      intro b hb
      rw [fetchExperimentRecordsWithPagination, List.mem_append] at hb
      rcases hb with hb | hb
      · by_cases hev : p.events.isEmpty
        · rw [if_pos hev] at hb; simp at hb
        · rw [if_neg hev] at hb
          rw [List.mem_singleton] at hb
          subst hb
          rw [ne_eq, ← List.isEmpty_iff]
          exact hev
      · by_cases hc : pageContinues p
        · rw [if_pos hc] at hb; exact ih b hb
        · rw [if_neg hc] at hb; simp at hb

theorem fetchRequests_closed {α : Type} :
    ∀ pages : List (Page α),
      fetchRequests pages =
        min pages.length ((pages.takeWhile pageContinues).length + 1) := by
  intro pages
  induction pages with
  | nil => simp [fetchRequests]
  | cons p rest ih =>
      by_cases hc : pageContinues p
      · rw [fetchRequests, if_pos hc, ih,
          List.takeWhile_cons_of_pos hc]
        simp only [List.length_cons]
        omega
      · rw [fetchRequests, if_neg hc,
          List.takeWhile_cons_of_neg (by rwa [Bool.not_eq_true] at hc ⊢)]
        simp only [List.length_cons, List.length_nil]
        omega

theorem fetch_batches_closed {α : Type} :
    ∀ pages : List (Page α),
      fetchExperimentRecordsWithPagination pages =
        ((pages.take ((pages.takeWhile pageContinues).length + 1)).filter
          (fun p => !p.events.isEmpty)).map Page.events := by
  intro pages
  induction pages with
  | nil => simp [fetchExperimentRecordsWithPagination]
  | cons p rest ih =>
      by_cases hc : pageContinues p
      · have hev : p.events.isEmpty = false := by
          rw [List.isEmpty_eq_false]
          exact pageContinues_events_ne_nil p hc
        rw [fetchExperimentRecordsWithPagination, if_pos hc,
          if_neg (by rw [hev]; exact Bool.false_ne_true),
          List.takeWhile_cons_of_pos hc]
        simp only [List.length_cons, List.take_succ_cons, List.filter_cons,
          hev, Bool.not_false, List.map_cons, if_pos trivial,
          List.singleton_append]
        rw [ih]
      · rw [fetchExperimentRecordsWithPagination, if_neg hc,
          List.takeWhile_cons_of_neg (by rwa [Bool.not_eq_true] at hc ⊢)]
        simp only [List.length_nil, Nat.zero_add, List.take_succ_cons,
          List.take_zero, List.filter_cons, List.filter_nil]
        by_cases hev : p.events.isEmpty
        · rw [if_pos hev]
          simp [hev]
        · rw [if_neg hev]
          rw [Bool.not_eq_true] at hev
          simp [hev]

/-- C3: the paginated fetcher issues a next page request iff the
just-returned cursor is truthy and the just-fetched batch was non-empty
(so the request count is one more than the run of continuing pages,
bounded by the pages available), it never yields an empty batch, and on
pages `[⟨[a,b], "x"⟩, ⟨[], "x"⟩]` it emits exactly the one batch
`[a,b]` even though the second page still carried a cursor. -/
theorem fetchPagination_stop_conditions {α : Type} (pages : List (Page α)) :
    (∀ b ∈ fetchExperimentRecordsWithPagination pages, b ≠ []) ∧
    fetchRequests pages =
      min pages.length ((pages.takeWhile pageContinues).length + 1) ∧
    fetchExperimentRecordsWithPagination pages =
      ((pages.take ((pages.takeWhile pageContinues).length + 1)).filter
        (fun p => !p.events.isEmpty)).map Page.events ∧
    (∀ a b : α,
      fetchExperimentRecordsWithPagination
        [⟨[a, b], some "x"⟩, ⟨[], some "x"⟩] = [[a, b]] ∧
      fetchRequests ([⟨[a, b], some "x"⟩, ⟨[], some "x"⟩] :
        List (Page α)) = 2) :=
  ⟨fetch_batches_nonempty pages, fetchRequests_closed pages,
    fetch_batches_closed pages,
    fun a b => ⟨rfl, rfl⟩⟩

/-- Witness for C3 at a concrete page list. -/
theorem fetchPagination_stop_conditions_witness :
    fetchExperimentRecordsWithPagination
      [⟨[0, 1], some "x"⟩, ⟨[], some "x"⟩] = [[0, 1]] ∧
    fetchRequests ([⟨[0, 1], some "x"⟩, ⟨[], some "x"⟩] :
      List (Page Nat)) = 2 :=
  (fetchPagination_stop_conditions
    ([⟨[0, 1], some "x"⟩, ⟨[], some "x"⟩] : List (Page Nat))).2.2.2 0 1

/-- C7 counterexample: the claim says the Retry-After hint is used only
when the parsed value is a finite number greater than zero, with every
other parsed value falling back to exponential backoff.  But the source
checks only `!isNaN(retryAfter) && retryAfter > 0`, which `Infinity`
passes (e.g. a `Retry-After: Infinity` header, which `parseFloat` parses
to `Infinity`): the hint path is taken, not the backoff fallback. -/
theorem computeRetryDelay_infinity_counterexample :
    computeRetryDelay ⟨some 429, some JSNum.posInf, none⟩ 0 500 30000 0 =
      (true, JSNum.posInf) := by
  rfl

/-- C7 (amended): on a 429 carrying a Retry-After value, the hint
`ceil(retryAfterSeconds * 1000)` is used iff the parsed value is not NaN
and is greater than zero — this includes `Infinity`; for a NaN or
non-positive parsed value the code silently falls back to the computed
exponential backoff. -/
theorem computeRetryDelay_hint_condition (e : JSError) (attempt : Nat)
    (initialBackoff maxBackoff rand : ℚ) (v : JSNum)
    (h429 : e.status = some 429) (hhdr : e.retryAfter = some v) :
    ((computeRetryDelay e attempt initialBackoff maxBackoff rand).1 = true ↔
      (v.isNaNb = false ∧ v.gtZero = true)) ∧
    (∀ q : ℚ, v = .fin q → 0 < q →
      computeRetryDelay e attempt initialBackoff maxBackoff rand =
        (true, .fin ((⌈q * 1000⌉ : ℤ) : ℚ))) ∧
    (v.isNaNb = true ∨ v.gtZero = false →
      computeRetryDelay e attempt initialBackoff maxBackoff rand =
        (false, .fin ((calculateBackoff attempt initialBackoff maxBackoff
          rand : ℤ) : ℚ))) ∧
    (v = .posInf →
      computeRetryDelay e attempt initialBackoff maxBackoff rand =
        (true, .posInf)) := by
  have hrl : isRateLimitError e = true := by
    rw [isRateLimitError, h429]
    rfl
  rw [computeRetryDelay, hrl, hhdr]
  dsimp only
  refine ⟨?_, ?_, ?_, ?_⟩
  · by_cases hcond : v.isNaNb = false ∧ v.gtZero = true
    · rw [if_pos hcond]
      simp [hcond]
    · rw [if_neg hcond]
      simpa using hcond
  · intro q hq hq0
    subst hq
    rw [if_pos ⟨rfl, by simp [JSNum.gtZero, hq0]⟩]
    rfl
  · intro hbad
    rw [if_neg (by
      rintro ⟨h1, h2⟩
      rcases hbad with hbad | hbad
      · rw [hbad] at h1; exact absurd h1 (by simp)
      · rw [hbad] at h2; exact Bool.false_ne_true h2)]
  · intro hq
    subst hq
    rw [if_pos ⟨rfl, rfl⟩]
    rfl

/-- Witness for C7 (amended) at concrete inputs. -/
theorem computeRetryDelay_hint_condition_witness :
    computeRetryDelay ⟨some 429, some (JSNum.fin 2), none⟩ 0 500 30000 0 =
      (true, JSNum.fin 2000) ∧
    computeRetryDelay ⟨some 429, some JSNum.nan, none⟩ 0 500 30000 0 =
      (false, JSNum.fin ((calculateBackoff 0 500 30000 0 : ℤ) : ℚ)) := by
  constructor
  · have h := (computeRetryDelay_hint_condition
      ⟨some 429, some (JSNum.fin 2), none⟩ 0 500 30000 0 (JSNum.fin 2)
      rfl rfl).2.1 2 rfl (by norm_num)
    rw [h]
    norm_num
  · exact (computeRetryDelay_hint_condition
      ⟨some 429, some JSNum.nan, none⟩ 0 500 30000 0 JSNum.nan
      rfl rfl).2.2.1 (Or.inl rfl)

/-- C8: `calculateBackoff` returns the floor of the capped exponential
delay `min(2^attempt * initialMs, maxMs)` plus a jitter drawn from
`[0, 0.25 * cappedDelay]` by the injected random source; consequently it
never exceeds `maxMs * 1.25`, and for each fixed random draw it is
non-decreasing in the attempt number (hence so is its expectation under
any distribution of the random source). -/
theorem calculateBackoff_spec (attempt : Nat)
    (initialBackoff maxBackoff rand : ℚ)
    (hi : 0 ≤ initialBackoff) (hm : 0 ≤ maxBackoff)
    (hr0 : 0 ≤ rand) (hr1 : rand < 1) :
    (∃ j : ℚ, 0 ≤ j ∧
      j ≤ min (2 ^ attempt * initialBackoff) maxBackoff / 4 ∧
      calculateBackoff attempt initialBackoff maxBackoff rand =
        ⌊min (2 ^ attempt * initialBackoff) maxBackoff + j⌋) ∧
    ((calculateBackoff attempt initialBackoff maxBackoff rand : ℚ) ≤
      maxBackoff * (5 / 4)) ∧
    calculateBackoff attempt initialBackoff maxBackoff rand ≤
      calculateBackoff (attempt + 1) initialBackoff maxBackoff rand := by
  have hc0 : (0 : ℚ) ≤ min (2 ^ attempt * initialBackoff) maxBackoff :=
    le_min (by positivity) hm
  have hcm : min (2 ^ attempt * initialBackoff) maxBackoff ≤ maxBackoff :=
    min_le_right _ _
  refine ⟨⟨min (2 ^ attempt * initialBackoff) maxBackoff * (1 / 4) * rand,
    by positivity, by nlinarith, rfl⟩, ?_, ?_⟩
  · have hfl : ((⌊min (2 ^ attempt * initialBackoff) maxBackoff +
        min (2 ^ attempt * initialBackoff) maxBackoff * (1 / 4) * rand⌋ :
        ℤ) : ℚ) ≤ min (2 ^ attempt * initialBackoff) maxBackoff +
        min (2 ^ attempt * initialBackoff) maxBackoff * (1 / 4) * rand :=
      Int.floor_le _
    show ((⌊min (2 ^ attempt * initialBackoff) maxBackoff +
      min (2 ^ attempt * initialBackoff) maxBackoff * (1 / 4) * rand⌋ :
      ℤ) : ℚ) ≤ maxBackoff * (5 / 4)
    nlinarith
  · apply Int.floor_le_floor
    have hpow : (2 : ℚ) ^ attempt ≤ 2 ^ (attempt + 1) := by
      apply pow_le_pow_right₀ (by norm_num)
      omega
    have hcle : min (2 ^ attempt * initialBackoff) maxBackoff ≤
        min (2 ^ (attempt + 1) * initialBackoff) maxBackoff :=
      min_le_min (by nlinarith) le_rfl
    nlinarith [le_min (by positivity :
        (0:ℚ) ≤ 2 ^ (attempt + 1) * initialBackoff) hm]

/-- Witness for C8 at concrete inputs. -/
theorem calculateBackoff_spec_witness :
    ((calculateBackoff 1 500 30000 (1 / 2) : ℚ) ≤ 30000 * (5 / 4)) ∧
    calculateBackoff 1 500 30000 (1 / 2) ≤
      calculateBackoff 2 500 30000 (1 / 2) := by
  have h := calculateBackoff_spec 1 500 30000 (1 / 2)
    (by norm_num) (by norm_num) (by norm_num) (by norm_num)
  exact ⟨h.2.1, h.2.2⟩

/-- C9: a run whose input totals fewer than 1000 records performs a
single terminal write whose header row is the sorted union of the key
paths over all records, and reports their count; a run with no records
performs no file operation and reports `recordCount = 0`. -/
theorem streamBatches_small_run (bs : List (List Record))
    (hlen : bs.flatten.length < 1000) :
    (bs.flatten ≠ [] →
      (streamBatches bs).ops = [FileOp.writeFile
        (sortedHeaders (bs.flatten.map flattenObject))
        ((bs.flatten.map flattenObject).map
          (projectRow (sortedHeaders (bs.flatten.map flattenObject))))] ∧
      (streamBatches bs).recordCount = bs.flatten.length ∧
      (∀ k, k ∈ sortedHeaders (bs.flatten.map flattenObject) ↔
        ∃ r ∈ bs.flatten, k ∈ keysOf (flattenObject r))) ∧
    (bs.flatten = [] →
      (streamBatches bs).ops = [] ∧ (streamBatches bs).recordCount = 0) := by
  have hrun : processBatches initState bs =
      { initState with buffer := bs.flatten } := by
    have h := processBatches_buffering bs initState rfl
      (by simpa [initState] using hlen)
    simpa [initState] using h
  constructor
  · intro hne
    have hfin := finalize_write { initState with buffer := bs.flatten } rfl
      (by simpa using hne)
    refine ⟨?_, ?_, ?_⟩
    · rw [streamBatches, hrun, hfin]
      dsimp only [initState]
      simp
    · rw [streamBatches, hrun, hfin]
      dsimp only [initState]
      rw [List.length_map]
    · intro k
      rw [mem_sortedHeaders]
      constructor
      · rintro ⟨f, hf, hk⟩
        obtain ⟨r, hr, rfl⟩ := List.mem_map.1 hf
        exact ⟨r, hr, hk⟩
      · rintro ⟨r, hr, hk⟩
        exact ⟨_, List.mem_map_of_mem flattenObject hr, hk⟩
  · intro hnil
    have hfin := finalize_empty { initState with buffer := bs.flatten } rfl
      (by simpa using hnil)
    rw [streamBatches, hrun, hfin]
    exact ⟨rfl, rfl⟩

/-- Witness for C9: two records in two batches give a single write with
both records and `recordCount = 2`. -/
theorem streamBatches_small_run_witness :
    (streamBatches [[recXY], [recXYZ]]).recordCount = 2 ∧
    (streamBatches [[recXY], [recXYZ]]).ops ≠ [] := by
  have h := (streamBatches_small_run [[recXY], [recXYZ]]
    (by simp)).1 (by simp)
  refine ⟨?_, ?_⟩
  · rw [h.2.1]
    simp
  · rw [h.1]
    simp

/-! ## Orchestrator lemmas -/

/-- Whether an `Except` is an error. -/
def exceptIsError {ε α : Type} : Except ε α → Bool
  | .error _ => true
  | .ok _ => false

theorem exportEntities_spec (dir : String)
    (fetch : Entity → Except String (List (List Record))) :
    ∀ entities : List Entity,
      (exportEntities dir fetch entities).attempted =
        entities.map Entity.id ∧
      (exportEntities dir fetch entities).failures =
        (entities.filter (fun e => exceptIsError (fetch e))).map Entity.id ∧
      (∀ e ∈ entities, ∀ bs, fetch e = .ok bs →
        (entityFilePath dir e, exportResultOf (streamBatches bs)) ∈
          (exportEntities dir fetch entities).files) := by
  intro entities
  induction entities with
  | nil =>
      refine ⟨rfl, rfl, ?_⟩
      intro e he
      simp at he
  | cons e rest ih =>
      obtain ⟨ih1, ih2, ih3⟩ := ih
      cases hfe : fetch e with
      | error err =>
          rw [exportEntities, hfe]
          refine ⟨?_, ?_, ?_⟩
          · show e.id :: (exportEntities dir fetch rest).attempted = _
            rw [ih1, List.map_cons]
          · show e.id :: (exportEntities dir fetch rest).failures = _
            rw [ih2, List.filter_cons, if_pos (by rw [hfe]; rfl),
              List.map_cons]
          · intro e' he' bs hbs
            rcases List.mem_cons.1 he' with he' | he'
            · subst he'
              rw [hfe] at hbs
              exact absurd hbs (by simp)
            · exact ih3 e' he' bs hbs
      | ok bs0 =>
          rw [exportEntities, hfe]
          refine ⟨?_, ?_, ?_⟩
          · show e.id :: (exportEntities dir fetch rest).attempted = _
            rw [ih1, List.map_cons]
          · show (exportEntities dir fetch rest).failures = _
            rw [ih2, List.filter_cons, if_neg (by rw [hfe]; simp [exceptIsError])]
          · intro e' he' bs hbs
            rcases List.mem_cons.1 he' with he' | he'
            · subst he'
              rw [hfe] at hbs
              have hbs0 : bs0 = bs := by
                injection hbs
              subst hbs0
              exact List.mem_cons_self _ _
            · exact List.mem_cons_of_mem _ (ih3 e' he' bs hbs)

/-- C4: a failure exporting one entity is caught at the orchestrator
boundary and recorded, and every other entity in both lists is still
attempted; in particular every entity whose fetch-and-stream body
succeeds has its file written with the writer's result, regardless of
failures before it. -/
theorem exportProjectData_isolation (experimentsDir datasetsDir : String)
    (fetchExp fetchDs : Entity → Except String (List (List Record)))
    (experiments datasets : List Entity) :
    (exportProjectData experimentsDir datasetsDir fetchExp fetchDs
      experiments datasets).attempted =
        experiments.map Entity.id ++ datasets.map Entity.id ∧
    (exportProjectData experimentsDir datasetsDir fetchExp fetchDs
      experiments datasets).failures =
        (experiments.filter (fun e => exceptIsError (fetchExp e))).map
          Entity.id ++
        (datasets.filter (fun e => exceptIsError (fetchDs e))).map
          Entity.id ∧
    (∀ e ∈ experiments, ∀ bs, fetchExp e = .ok bs →
      (entityFilePath experimentsDir e, exportResultOf (streamBatches bs)) ∈
        (exportProjectData experimentsDir datasetsDir fetchExp fetchDs
          experiments datasets).files) ∧
    (∀ e ∈ datasets, ∀ bs, fetchDs e = .ok bs →
      (entityFilePath datasetsDir e, exportResultOf (streamBatches bs)) ∈
        (exportProjectData experimentsDir datasetsDir fetchExp fetchDs
          experiments datasets).files) := by
  obtain ⟨he1, he2, he3⟩ := exportEntities_spec experimentsDir fetchExp
    experiments
  obtain ⟨hd1, hd2, hd3⟩ := exportEntities_spec datasetsDir fetchDs datasets
  refine ⟨?_, ?_, ?_, ?_⟩
  · show (exportEntities experimentsDir fetchExp experiments).attempted ++
      (exportEntities datasetsDir fetchDs datasets).attempted = _
    rw [he1, hd1]
  · show (exportEntities experimentsDir fetchExp experiments).failures ++
      (exportEntities datasetsDir fetchDs datasets).failures = _
    rw [he2, hd2]
  · intro e he bs hbs
    exact List.mem_append_left _ (he3 e he bs hbs)
  · intro e he bs hbs
    exact List.mem_append_right _ (hd3 e he bs hbs)

/-- A failing and a succeeding entity for the C4 witness. -/
def entE1 : Entity := ⟨"e1", none⟩

def entE2 : Entity := ⟨"e2", some "Exp Two"⟩

/-- A per-entity record source whose first entity fails (retries
exhausted) and whose second succeeds with one record. -/
def fetchW : Entity → Except String (List (List Record)) :=
  fun e => if e.id == "e1" then .error "retries exhausted" else .ok [[recXY]]

/-- Witness for C4: with the first of two entities failing and the
second succeeding, both are attempted, exactly one failure is recorded,
and the second entity's file is present with `recordCount = 1`. -/
theorem exportProjectData_isolation_witness :
    (exportProjectData "out/experiments" "out/datasets" fetchW fetchW
      [entE1, entE2] []).attempted = ["e1", "e2"] ∧
    (exportProjectData "out/experiments" "out/datasets" fetchW fetchW
      [entE1, entE2] []).failures = ["e1"] ∧
    (entityFilePath "out/experiments" entE2,
      ({ recordCount := 1, hadTruncation := false,
         schemaDriftDetected := false } : ExportResult)) ∈
      (exportProjectData "out/experiments" "out/datasets" fetchW fetchW
        [entE1, entE2] []).files := by
  obtain ⟨h1, h2, h3, -⟩ := exportProjectData_isolation "out/experiments"
    "out/datasets" fetchW fetchW [entE1, entE2] []
  refine ⟨?_, ?_, ?_⟩
  · rw [h1]; rfl
  · rw [h2]; rfl
  · have hm := h3 entE2 (by simp) [[recXY]] rfl
    have hres : exportResultOf (streamBatches [[recXY]]) =
        { recordCount := 1, hadTruncation := false,
          schemaDriftDetected := false } := rfl
    rwa [hres] at hm

/-- A record holding a 1001-element array: its flattening must emit a
truncation placeholder. -/
def bigArrRecord : Record :=
  [("a", Value.vArr (List.replicate 1001 (Value.vNum 0)))]

set_option maxRecDepth 8000 in
/-- C5: flattening recurses into nested mappings with dot-joined paths,
passes scalars through, serializes short arrays compactly, replaces a
1001-element array by a truncation placeholder, and degrades a
serialization fault to an explanatory placeholder.  However, a run of
fewer than 1000 records that contains such a placeholder reports
`hadTruncation = false`: the terminal small-run flush skips the
truncation scan that both in-loop paths perform, so the run-level flag
promised by the claim is not set on this path. -/
theorem flattenObject_truncation_behaviour :
    flattenObject [("a", Value.vObj [("b", Value.vNum 1)]),
      ("c", Value.vArr [Value.vNum 1, Value.vNum 2, Value.vNum 3])] =
      [("a.b", Value.vNum 1), ("c", Value.vStr "[1,2,3]")] ∧
    flattenObject bigArrRecord =
      [("a", Value.vStr "[Array with 1001 items - truncated for export]")] ∧
    isTruncMarker
      (Value.vStr "[Array with 1001 items - truncated for export]") = true ∧
    flattenObject [("a", Value.vArr [Value.vFault "boom"])] =
      [("a", Value.vStr "[Error serializing array: boom]")] ∧
    (streamBatches [[bigArrRecord]]).recordCount = 1 ∧
    (streamBatches [[bigArrRecord]]).ops =
      [FileOp.writeFile ["a"] [[some (Value.vStr
        "[Array with 1001 items - truncated for export]")]]] ∧
    (streamBatches [[bigArrRecord]]).hadTruncation = false :=
  ⟨rfl, rfl, rfl, rfl, rfl, rfl, rfl⟩

/-- Strings sort as expected on the sample keys. -/
theorem sorted_keys_xy :
    List.Sorted (fun a b : String => a ≤ b) ["x", "y"] := by
  rw [List.sorted_cons]
  refine ⟨?_, by simp⟩
  intro b hb
  rw [List.mem_singleton] at hb
  subst hb
  rw [String.le_iff_toList_le]
  decide

theorem sorted_keys_xyz :
    List.Sorted (fun a b : String => a ≤ b) ["x", "y", "z"] := by
  rw [List.sorted_cons]
  refine ⟨?_, ?_⟩
  · intro b hb
    rw [String.le_iff_toList_le]
    rcases List.mem_cons.1 hb with hb | hb
    · subst hb; decide
    · rw [List.mem_singleton] at hb; subst hb; decide
  · rw [List.sorted_cons]
    refine ⟨?_, by simp⟩
    intro b hb
    rw [List.mem_singleton] at hb
    subst hb
    rw [String.le_iff_toList_le]
    decide

theorem lockedState_headers (s : WState) (l : List Record) :
    (lockedState s l).headers =
      some (sortedHeaders (l.map flattenObject)) := rfl

theorem lockedState_recordCount (s : WState) (l : List Record) :
    (lockedState s l).recordCount = (l.map flattenObject).length := rfl

theorem lockedState_drift (s : WState) (l : List Record) :
    (lockedState s l).schemaDriftDetected = s.schemaDriftDetected := rfl

theorem lockedState_ops (s : WState) (l : List Record) :
    (lockedState s l).ops = s.ops ++ [FileOp.writeFile
      (sortedHeaders (l.map flattenObject))
      ((l.map flattenObject).map
        (projectRow (sortedHeaders (l.map flattenObject))))] := rfl

theorem sum_rows_lockedState (s : WState) (l : List Record) :
    (((lockedState s l).ops.map (fun op => op.rowsOf.length)).sum) =
      ((s.ops.map (fun op => op.rowsOf.length)).sum) + l.length := by
  rw [lockedState_ops, List.map_append, List.sum_append, List.map_cons,
    List.map_nil, List.sum_cons, List.sum_nil]
  show (s.ops.map (fun op => op.rowsOf.length)).sum +
    (((l.map flattenObject).map (projectRow
      (sortedHeaders (l.map flattenObject)))).length + 0) = _
  rw [List.length_map, List.length_map, Nat.add_zero]

/-- C1 (amended): when the batch boundaries align so that some prefix of
the batches carries exactly records 1-1000 (each with exactly the keys
`x` and `y`) and the remaining batches carry the 500 records that
additionally introduce `z`, the writer locks the header set at
`["x", "y"]`, detects schema drift, reports `recordCount = 1500`, and
writes exactly 1500 data rows, all under the locked two-column header
with no `z` column.  (When a single batch straddles the 1000-record
boundary this fails: see the counterexample.) -/
theorem streamCSVToFile_drift_scenario (bs1 bs2 : List (List Record))
    (hlen1 : bs1.flatten.length = 1000)
    (hlen2 : bs2.flatten.length = 500)
    (hk1 : ∀ r ∈ bs1.flatten, ∀ k,
      k ∈ keysOf (flattenObject r) ↔ (k = "x" ∨ k = "y"))
    (hk2 : ∀ r ∈ bs2.flatten, ∀ k,
      k ∈ keysOf (flattenObject r) ↔ (k = "x" ∨ k = "y" ∨ k = "z")) :
    (streamBatches (bs1 ++ bs2)).headers = some ["x", "y"] ∧
    (streamBatches (bs1 ++ bs2)).schemaDriftDetected = true ∧
    (streamBatches (bs1 ++ bs2)).recordCount = 1500 ∧
    (((streamBatches (bs1 ++ bs2)).ops.map
      (fun op => op.rowsOf.length)).sum = 1500) ∧
    (∀ op ∈ (streamBatches (bs1 ++ bs2)).ops,
      op.headersOf = ["x", "y"] ∧ "z" ∉ op.headersOf ∧
      ∀ row ∈ op.rowsOf, row.length = 2) := by
  have hxy : sortedHeaders (bs1.flatten.map flattenObject) = ["x", "y"] := by
    apply sortedHeaders_eq
    · intro k
      constructor
      · rintro ⟨f, hf, hk⟩
        obtain ⟨r, hr, rfl⟩ := List.mem_map.1 hf
        rcases (hk1 r hr k).1 hk with h | h <;> simp [h]
      · intro hmem
        have hne : bs1.flatten ≠ [] := by
          intro h; rw [h] at hlen1; simp at hlen1
        obtain ⟨r, hr⟩ := List.exists_mem_of_ne_nil _ hne
        refine ⟨flattenObject r, List.mem_map_of_mem flattenObject hr, ?_⟩
        exact (hk1 r hr k).2 (by simpa using hmem)
    · decide
    · exact sorted_keys_xy
  have hlock : processBatches initState bs1 =
      lockedState initState bs1.flatten := by
    have h := processBatches_lock bs1 initState rfl (by simp [initState])
      (by simpa [initState] using hlen1)
    simpa [initState] using h
  have hLheaders : (lockedState initState bs1.flatten).headers =
      some ["x", "y"] := by
    rw [lockedState_headers, hxy]
  have hfinalheaders :
      (processBatches (lockedState initState bs1.flatten) bs2).headers =
        some ["x", "y"] :=
    processBatches_headers_locked bs2 _ _ hLheaders
  have hfin : streamBatches (bs1 ++ bs2) =
      processBatches (lockedState initState bs1.flatten) bs2 := by
    rw [streamBatches, processBatches_append, hlock]
    exact finalize_locked _ _ hfinalheaders
  obtain ⟨newOps, h1, h2, h3, h4⟩ :=
    processBatches_ops_locked bs2 _ _ hLheaders
  refine ⟨by rw [hfin]; exact hfinalheaders, ?_, ?_, ?_, ?_⟩
  · rw [hfin]
    apply processBatches_drift_trigger bs2 _ _ hLheaders
    have hne2 : bs2.flatten ≠ [] := by
      intro h; rw [h] at hlen2; simp at hlen2
    obtain ⟨r, hr⟩ := List.exists_mem_of_ne_nil _ hne2
    exact ⟨r, hr, "z", (hk2 r hr "z").2 (by simp), by decide⟩
  · rw [hfin, processBatches_count_locked bs2 _ _ hLheaders,
      lockedState_recordCount, List.length_map, hlen1, hlen2]
  · rw [hfin, h1, List.map_append, List.sum_append, h3, hlen2,
      sum_rows_lockedState, hlen1]
    dsimp only [initState]
    simp
  · intro op hop
    rw [hfin, h1, lockedState_ops] at hop
    dsimp only [initState] at hop
    rw [List.nil_append, List.cons_append, List.nil_append,
      List.mem_cons] at hop
    rcases hop with hop | hop
    · subst hop
      refine ⟨by rw [FileOp.headersOf, hxy], by rw [FileOp.headersOf, hxy]; decide, ?_⟩
      intro row hrow
      rw [FileOp.rowsOf] at hrow
      obtain ⟨f, -, hf⟩ := List.mem_map.1 hrow
      rw [← hf, projectRow, List.length_map, hxy]
      rfl
    · have hhd := h2 op hop
      refine ⟨hhd, by rw [hhd]; decide, ?_⟩
      intro row hrow
      rw [h4 op hop row hrow]
      rfl

set_option maxRecDepth 4000 in
/-- C1 counterexample: the claim quantifies over every delivery of the
1500 records in batches, but a batching in which one batch straddles the
1000-record boundary falsifies it.  With the batches
`[999 × recXY]` and `[recXY, 500 × recXYZ]` — records 1-1000 still
have exactly the keys x and y, records 1001-1500 add z — the writer
only reaches the 1000-record threshold after the straddling batch, with
all 1500 records buffered, so it locks the HeaderSet at
`["x", "y", "z"]` (not `["x", "y"]`) and reports no schema drift
(not `schemaDriftDetected = true`). -/
theorem streamCSVToFile_straddle_counterexample :
    (streamBatches [List.replicate 999 recXY,
      recXY :: List.replicate 500 recXYZ]).headers =
        some ["x", "y", "z"] ∧
    (streamBatches [List.replicate 999 recXY,
      recXY :: List.replicate 500 recXYZ]).schemaDriftDetected = false := by
  have hstep1 : processBatch initState (List.replicate 999 recXY) =
      { initState with buffer := List.replicate 999 recXY } := by
    have h := processBatch_buffering initState (List.replicate 999 recXY)
      rfl (by
        show (([] : List Record) ++ List.replicate 999 recXY).length < 1000
        rw [List.nil_append, List.length_replicate]
        norm_num)
    have hb : initState.buffer ++ List.replicate 999 recXY =
        List.replicate 999 recXY := List.nil_append _
    rw [hb] at h
    exact h
  have hstep2 : processBatch
      { initState with buffer := List.replicate 999 recXY }
      (recXY :: List.replicate 500 recXYZ) =
      lockedState { initState with buffer := List.replicate 999 recXY }
        (List.replicate 999 recXY ++ (recXY :: List.replicate 500 recXYZ)) := by
    apply processBatch_lock
    · rfl
    · exact List.cons_ne_nil _ _
    · show 1000 ≤ (List.replicate 999 recXY ++
        (recXY :: List.replicate 500 recXYZ)).length
      rw [List.length_append, List.length_replicate, List.length_cons,
        List.length_replicate]
      omega
  have hrun : processBatches initState [List.replicate 999 recXY,
      recXY :: List.replicate 500 recXYZ] =
      lockedState { initState with buffer := List.replicate 999 recXY }
        (List.replicate 999 recXY ++ (recXY :: List.replicate 500 recXYZ)) := by
    rw [processBatches_two, hstep1, hstep2]
  have hhead : sortedHeaders
      ((List.replicate 999 recXY ++
        (recXY :: List.replicate 500 recXYZ)).map flattenObject) =
      ["x", "y", "z"] := by
    apply sortedHeaders_eq
    · intro k
      constructor
      · rintro ⟨f, hf, hk⟩
        obtain ⟨r, hr, rfl⟩ := List.mem_map.1 hf
        have hcases : r = recXY ∨ r = recXYZ := by
          rcases List.mem_append.1 hr with h | h
          · exact Or.inl (List.eq_of_mem_replicate h)
          · rcases List.mem_cons.1 h with h | h
            · exact Or.inl h
            · exact Or.inr (List.eq_of_mem_replicate h)
        rcases hcases with rfl | rfl
        · rw [keysOf_recXY] at hk
          simp only [List.mem_cons, List.not_mem_nil, or_false] at hk ⊢
          rcases hk with hk | hk
          · exact Or.inl hk
          · exact Or.inr (Or.inl hk)
        · rw [keysOf_recXYZ] at hk
          simp only [List.mem_cons, List.not_mem_nil, or_false] at hk ⊢
          exact hk
      · intro hmem
        simp at hmem
        rcases hmem with rfl | rfl | rfl
        · exact ⟨flattenObject recXY, List.mem_map_of_mem flattenObject
            (List.mem_append.2 (Or.inl
              (List.mem_replicate.2 ⟨by norm_num, rfl⟩))),
            by rw [keysOf_recXY]; simp⟩
        · exact ⟨flattenObject recXY, List.mem_map_of_mem flattenObject
            (List.mem_append.2 (Or.inl
              (List.mem_replicate.2 ⟨by norm_num, rfl⟩))),
            by rw [keysOf_recXY]; simp⟩
        · exact ⟨flattenObject recXYZ, List.mem_map_of_mem flattenObject
            (List.mem_append.2 (Or.inr (List.mem_cons_of_mem _
              (List.mem_replicate.2 ⟨by norm_num, rfl⟩)))),
            by rw [keysOf_recXYZ]; simp⟩
    · decide
    · exact sorted_keys_xyz
  constructor
  · rw [streamBatches, hrun, finalize_locked _ _ (lockedState_headers _ _),
      lockedState_headers, hhead]
  · rw [streamBatches, hrun, finalize_locked _ _ (lockedState_headers _ _),
      lockedState_drift]
    rfl

/-- Witness for C1 (amended), with the boundary-aligned batching
`[1000 × recXY], [500 × recXYZ]`. -/
theorem streamCSVToFile_drift_scenario_witness :
    (streamBatches ([List.replicate 1000 recXY] ++
      [List.replicate 500 recXYZ])).headers = some ["x", "y"] ∧
    (streamBatches ([List.replicate 1000 recXY] ++
      [List.replicate 500 recXYZ])).schemaDriftDetected = true ∧
    (streamBatches ([List.replicate 1000 recXY] ++
      [List.replicate 500 recXYZ])).recordCount = 1500 := by
  have h := streamCSVToFile_drift_scenario
    [List.replicate 1000 recXY] [List.replicate 500 recXYZ]
    (by rw [List.flatten_cons, List.flatten_nil, List.append_nil,
      List.length_replicate])
    (by rw [List.flatten_cons, List.flatten_nil, List.append_nil,
      List.length_replicate])
    (by
      intro r hr k
      rw [List.flatten_cons, List.flatten_nil, List.append_nil] at hr
      have hreq := List.eq_of_mem_replicate hr
      subst hreq
      rw [keysOf_recXY]
      simp)
    (by
      intro r hr k
      rw [List.flatten_cons, List.flatten_nil, List.append_nil] at hr
      have hreq := List.eq_of_mem_replicate hr
      subst hreq
      rw [keysOf_recXYZ]
      simp)
  exact ⟨h.1, h.2.1, h.2.2.1⟩

end BraintrustCLI
